import Mathlib

/-
Verification of a Gauss-Seidel Laplace-equation solver benchmark.

The repository consists of a benchmark harness (run_comparison.py) driving two
variants of a Gauss-Seidel relaxation solver for the 2D Laplace equation
(solve_laplace_gauss_seidel_pure and solve_laplace_gauss_seidel_numba, from a
solver module that is not part of the sources at hand; those components are
modelled from the specification, as marked on each definition).  Real-valued
grid entries are modelled by rationals, so that the exact arithmetic of the
relaxation stencil is preserved; the one place where IEEE-754 double
arithmetic itself is the subject (the harness expression int(1/h) + 1) is
modelled exactly by round-to-nearest-even rationals.
-/

namespace LaplaceGS

/-- A grid buffer: entries indexed by row and column.  Only the indices below
the grid size are meaningful; a total function keeps updates simple. -/
def Grid : Type := ℕ → ℕ → ℚ

/-- Write a single cell of the grid in place. -/
def updateCell (g : Grid) (i j : ℕ) (v : ℚ) : Grid :=
  fun a b => if a = i ∧ b = j then v else g a b

/-- Modelled from the spec: one Gauss-Seidel update of a single interior point
of the grid: the point is replaced by the arithmetic mean of its four
axis-adjacent neighbors, and the running maximum absolute change is updated. -/
def gsStep (st : Grid × ℚ) (p : ℕ × ℕ) : Grid × ℚ :=
  let v := (st.1 (p.1 - 1) p.2 + st.1 (p.1 + 1) p.2 +
            st.1 p.1 (p.2 - 1) + st.1 p.1 (p.2 + 1)) / 4
  (updateCell st.1 p.1 p.2 v, max st.2 |v - st.1 p.1 p.2|)

/-- The interior points of an n-by-n grid, listed in row-major order
(first index ascending, then second index ascending). -/
def interiorPoints (n : ℕ) : List (ℕ × ℕ) :=
  (List.range' 1 (n - 2)).flatMap fun i =>
    (List.range' 1 (n - 2)).map fun j => (i, j)

/-- Run Gauss-Seidel updates over a list of points, threading the grid and the
change metric. -/
def sweepAux (ps : List (ℕ × ℕ)) (st : Grid × ℚ) : Grid × ℚ :=
  ps.foldl gsStep st

/-- The index (i, j) is on the boundary of an n-by-n grid. -/
def isBoundary (n i j : ℕ) : Prop :=
  i = 0 ∨ i = n - 1 ∨ j = 0 ∨ j = n - 1

/-- The index (i, j) is an interior point of an n-by-n grid. -/
def interiorIdx (n i j : ℕ) : Prop :=
  1 ≤ i ∧ i ≤ n - 2 ∧ 1 ≤ j ∧ j ≤ n - 2

/-- Row-major precedence on grid indices. -/
def rmLt (p q : ℕ × ℕ) : Prop :=
  p.1 < q.1 ∨ (p.1 = q.1 ∧ p.2 < q.2)

/-- Modelled from the spec: RelaxationKernel.sweep, baseline (pure Python)
variant.  One full in-place Gauss-Seidel sweep over the interior points in
row-major order, returning the updated grid and the change metric (maximum
absolute difference over the interior points between the value before and
after the sweep).  The solver module itself is absent from the sources; this
follows spec section 4.2. -/
def RelaxationKernel.sweep (n : ℕ) (g : Grid) : Grid × ℚ :=
  sweepAux (interiorPoints n) (g, 0)

/-- Modelled from the spec: the inner (column) loop of the accelerated
variant, written as the counted loop a compiled kernel executes: starting at
column j, perform cnt single-point updates with the row fixed. -/
def RelaxationKernel.innerLoop (i : ℕ) : ℕ → ℕ → Grid × ℚ → Grid × ℚ
  | _, 0, st => st
  | j, Nat.succ c, st => RelaxationKernel.innerLoop i (j + 1) c (gsStep st (i, j))

/-- Modelled from the spec: the outer (row) loop of the accelerated variant:
starting at row i, perform cnt inner loops of m column updates each. -/
def RelaxationKernel.outerLoop (m : ℕ) : ℕ → ℕ → Grid × ℚ → Grid × ℚ
  | _, 0, st => st
  | i, Nat.succ c, st =>
      RelaxationKernel.outerLoop m (i + 1) c (RelaxationKernel.innerLoop i 1 m st)

/-- Modelled from the spec: RelaxationKernel.sweep, accelerated (Numba)
variant.  The same traversal order and arithmetic as the baseline, organised
as explicit nested counted loops (the shape the JIT compiler executes); spec
section 4.2 requires the two variants to agree on algorithm, ordering and
arithmetic, differing only in execution engine. -/
def RelaxationKernel.sweepNumba (n : ℕ) (g : Grid) : Grid × ℚ :=
  RelaxationKernel.outerLoop (n - 2) 1 (n - 2) (g, 0)

/-- Modelled from the spec: the stopping decision of the ConvergenceTracker
(spec section 4.3). -/
inductive Decision : Type
  | CONTINUE : Decision
  | CONVERGED : Decision
  | MAX_ITER_REACHED : Decision
deriving DecidableEq

/-- Modelled from the spec: ConvergenceTracker.evaluate (spec section 4.3):
CONVERGED when the change metric is below epsilon, MAX_ITER_REACHED when the
iteration count has reached the cap and the change metric is not below
epsilon, CONTINUE otherwise.  MAX_ITER_REACHED is a returned decision, not an
exception. -/
def ConvergenceTracker.evaluate (change : ℚ) (iteration : ℤ) (epsilon : ℚ)
    (maxIter : ℤ) : Decision :=
  if change < epsilon then Decision.CONVERGED
  else if maxIter ≤ iteration then Decision.MAX_ITER_REACHED
  else Decision.CONTINUE

/-- Modelled from the spec: GridModel construction (spec section 4.1): the
boundary values are assigned by the pluggable boundary function b of the
index (a function of physical position once scaled by h), and interior
values start from the deterministic zero guess. -/
def GridModel.initGrid (b : ℕ → ℕ → ℚ) (n : ℕ) : Grid :=
  fun i j => if i = 0 ∨ i = n - 1 ∨ j = 0 ∨ j = n - 1 then b i j else 0

/-- Modelled from the spec: the grid size N = floor(1/h) + 1 of spec
sections 3 and 6, with the exact mathematical floor. -/
def gridN (h : ℚ) : ℕ :=
  ⌊1 / h⌋₊ + 1

/-- Modelled from the spec: the error taxonomy of spec section 7. -/
inductive SolveError : Type
  | InvalidArgument : SolveError
  | NumericalError : SolveError
deriving DecidableEq

/-- Modelled from the spec: the record returned by solve (spec section 6):
final grid, iteration count, final change metric, converged flag. -/
structure SolveResult : Type where
  grid : Grid
  iterations : ℕ
  final_error : ℚ
  converged : Bool

/-- Modelled from the spec: the Solver iteration state machine (spec section
4.4): repeatedly invoke the kernel sweep, increment the iteration count, and
consult ConvergenceTracker; both CONVERGED and MAX_ITER_REACHED are terminal.
The fuel argument bounds the recursion; the solver starts it at the iteration
cap, which the CONTINUE decision never outruns. -/
def Solver.loop (kernel : Grid → Grid × ℚ) (epsilon : ℚ) (maxIter : ℤ) :
    ℕ → Grid → ℕ → ℚ → SolveResult
  | 0, g, it, ch => ⟨g, it, ch, false⟩
  | Nat.succ fuel, g, it, ch =>
      let s := kernel g
      match ConvergenceTracker.evaluate s.2 ((it + 1 : ℕ) : ℤ) epsilon maxIter with
      | Decision.CONVERGED => ⟨s.1, it + 1, s.2, true⟩
      | Decision.MAX_ITER_REACHED => ⟨s.1, it + 1, s.2, false⟩
      | Decision.CONTINUE =>
          Solver.loop kernel epsilon maxIter fuel s.1 (it + 1) s.2

/-- Modelled from the spec: Solver.solve (spec sections 4.4, 6 and 7), the
single public entry point, parameterized by the kernel variant and the
boundary function.  Arguments are validated synchronously before any grid is
built: h outside (0, 1), epsilon at most 0 or max_iter at most 0 fail with
InvalidArgument. -/
def Solver.solve (kernel : ℕ → Grid → Grid × ℚ) (b : ℕ → ℕ → ℚ)
    (h epsilon : ℚ) (maxIter : ℤ) : Except SolveError SolveResult :=
  if h ≤ 0 ∨ 1 ≤ h ∨ epsilon ≤ 0 ∨ maxIter ≤ 0 then
    Except.error SolveError.InvalidArgument
  else
    Except.ok (Solver.loop (kernel (gridN h)) epsilon maxIter maxIter.toNat
      (GridModel.initGrid b (gridN h)) 0 0)

/-- Modelled from the spec: the baseline entry point imported by
run_comparison.py. -/
def solve_laplace_gauss_seidel_pure (b : ℕ → ℕ → ℚ) (h epsilon : ℚ)
    (maxIter : ℤ) : Except SolveError SolveResult :=
  Solver.solve RelaxationKernel.sweep b h epsilon maxIter

/-- Modelled from the spec: the accelerated entry point imported by
run_comparison.py. -/
def solve_laplace_gauss_seidel_numba (b : ℕ → ℕ → ℚ) (h epsilon : ℚ)
    (maxIter : ℤ) : Except SolveError SolveResult :=
  Solver.solve RelaxationKernel.sweepNumba b h epsilon maxIter

/-- The grid of a solve outcome (zero grid on error). -/
def gridOf : Except SolveError SolveResult → Grid
  | Except.ok r => r.grid
  | Except.error _ => fun _ _ => 0

/-- The iteration count of a solve outcome (zero on error). -/
def iterationsOf : Except SolveError SolveResult → ℕ
  | Except.ok r => r.iterations
  | Except.error _ => 0

/-- The final change metric of a solve outcome (zero on error). -/
def errorOf : Except SolveError SolveResult → ℚ
  | Except.ok r => r.final_error
  | Except.error _ => 0

/-- The converged flag of a solve outcome (false on error). -/
def convergedOf : Except SolveError SolveResult → Bool
  | Except.ok r => r.converged
  | Except.error _ => false

/-- Embedding of the caller-side timing of run_comparison.py (run_benchmark
lines 33-36 and 39-42, main lines 143-150): the harness reads a wall clock
before the solve call and after it and subtracts; the clock is an external
sequence of readings indexed by read number. -/
def timedRun (clock : ℕ → ℚ) (t : ℕ) (kernel : ℕ → Grid → Grid × ℚ)
    (b : ℕ → ℕ → ℚ) (h epsilon : ℚ) (maxIter : ℤ) :
    ℚ × Except SolveError SolveResult :=
  (clock (t + 1) - clock t, Solver.solve kernel b h epsilon maxIter)

/-- Two successive calls of one solve variant on identical inputs, as the
benchmark harness performs them. -/
def solveTwice (kernel : ℕ → Grid → Grid × ℚ) (b : ℕ → ℕ → ℚ)
    (h epsilon : ℚ) (maxIter : ℤ) :
    Except SolveError SolveResult × Except SolveError SolveResult :=
  (Solver.solve kernel b h epsilon maxIter, Solver.solve kernel b h epsilon maxIter)

/-- Embedding of the sequence of solver calls run_benchmark issues across its
list of spacings (run_comparison.py lines 25-48), accumulated in program
order as the loop executes them. -/
def benchSolveSeq (variant : ℚ → Except SolveError SolveResult)
    (hs : List ℚ) : List (Except SolveError SolveResult) :=
  hs.foldl (fun acc h => acc ++ [variant h]) []

/-- Lookup in a Python-style string-keyed dictionary (association list in
insertion order). -/
def dlookup {α : Type} (k : String) : List (String × α) → Option α
  | [] => none
  | (q, v) :: d => if k = q then some v else dlookup k d

/-- Insertion into a Python-style dictionary: replace in place when the key
is present, append otherwise. -/
def dinsert {α : Type} (k : String) (v : α) : List (String × α) → List (String × α)
  | [] => [(k, v)]
  | (q, w) :: d => if k = q then (q, v) :: d else (q, w) :: dinsert k v d

/-- Embedding of the per-spacing results dictionary of run_benchmark
(run_comparison.py lines 29-42): both the python and the numba timing entries
are set unconditionally.  The measured durations are external inputs. -/
def benchEntry (tp tn : ℚ → ℚ) (h : ℚ) : List (String × ℚ) :=
  [("python", tp h), ("numba", tn h)]

/-- Embedding of the dictionary key f-string of run_comparison.py lines 48,
67 and 89, parameterized by the grid-size function the script computes from
the spacing. -/
def benchKey (gs : ℚ → ℕ) (h : ℚ) : String :=
  "grid_" ++ toString (gs h)

/-- Embedding of the all_results accumulation of run_benchmark
(run_comparison.py lines 23-48): one complete results dictionary is stored
per spacing under its grid-size key. -/
def run_benchmark (gs : ℚ → ℕ) (tp tn : ℚ → ℚ) (hs : List ℚ) :
    List (String × List (String × ℚ)) :=
  hs.foldl (fun acc h => dinsert (benchKey gs h) (benchEntry tp tn h) acc) []

/-- A results dictionary carrying both the python and the numba entries, as
plot_benchmark_results dereferences without guards (lines 90-91). -/
def EntryComplete (r : List (String × ℚ)) : Prop :=
  (dlookup "python" r).isSome = true ∧ (dlookup "numba" r).isSome = true

/-- Every value stored in the dictionary is a complete results entry. -/
def DictComplete (d : List (String × List (String × ℚ))) : Prop :=
  ∀ k r, dlookup k d = some r → EntryComplete r

/-- Round half to even of a rational to an integer. -/
def rne (x : ℚ) : ℤ :=
  if x - ⌊x⌋ < 1 / 2 then ⌊x⌋
  else if 1 / 2 < x - ⌊x⌋ then ⌊x⌋ + 1
  else if ⌊x⌋ % 2 = 0 then ⌊x⌋ else ⌊x⌋ + 1

/-- Round a positive rational to the nearest IEEE-754 binary64 value
(round to nearest, ties to even): the significand is rounded to 53 bits at
the binade of the input.  Faithful for the normal range, which covers every
quantity run_comparison.py computes. -/
def rnd (q : ℚ) : ℚ :=
  ((rne (q * 2 ^ ((52 : ℤ) - Int.log 2 q)) : ℤ) : ℚ) * 2 ^ (Int.log 2 q - (52 : ℤ))

/-- The IEEE-754 binary64 value denoted by a positive decimal literal. -/
def toDouble (x : ℚ) : ℚ :=
  rnd x

/-- Correctly rounded IEEE-754 binary64 division of exactly represented
positive operands. -/
def fdiv (a b : ℚ) : ℚ :=
  rnd (a / b)

/-- Python int() applied to a float: truncation toward zero. -/
def truncQ (x : ℚ) : ℤ :=
  if 0 ≤ x then ⌊x⌋ else -⌊-x⌋

/-- Embedding of the grid-size expression int(1/h) + 1 of run_comparison.py
lines 26, 30 and 59, evaluated as Python evaluates it: the spacing literal is
a binary64 value, the division is correctly rounded binary64 division, and
int() truncates. -/
def grid_size (h : ℚ) : ℤ :=
  truncQ (fdiv 1 (toDouble h)) + 1

/-- A sample boundary function (values linear in the indices, hence harmonic),
as spec section 4.1 requires at least one of. -/
def bSample : ℕ → ℕ → ℚ :=
  fun i j => (i : ℚ) + (j : ℚ)

/-- A sample starting grid for concrete evaluations. -/
def gSample : Grid :=
  fun i j => (i : ℚ) + 2 * (j : ℚ)

theorem updateCell_same (g : Grid) (i j : ℕ) (v : ℚ) : updateCell g i j v i j = v := by
  simp [updateCell]

theorem updateCell_other (g : Grid) (i j a b : ℕ) (v : ℚ) (h : ¬(a = i ∧ b = j)) :
    updateCell g i j v a b = g a b := by
  simp only [updateCell, if_neg h]

theorem gsStep_fst (st : Grid × ℚ) (p : ℕ × ℕ) :
    (gsStep st p).1 = updateCell st.1 p.1 p.2
      ((st.1 (p.1 - 1) p.2 + st.1 (p.1 + 1) p.2 +
        st.1 p.1 (p.2 - 1) + st.1 p.1 (p.2 + 1)) / 4) := rfl

theorem gsStep_snd (st : Grid × ℚ) (p : ℕ × ℕ) :
    (gsStep st p).2 = max st.2
      |(st.1 (p.1 - 1) p.2 + st.1 (p.1 + 1) p.2 +
        st.1 p.1 (p.2 - 1) + st.1 p.1 (p.2 + 1)) / 4 - st.1 p.1 p.2| := rfl

theorem sweepAux_nil (st : Grid × ℚ) : sweepAux [] st = st := rfl

theorem sweepAux_cons (p : ℕ × ℕ) (ps : List (ℕ × ℕ)) (st : Grid × ℚ) :
    sweepAux (p :: ps) st = sweepAux ps (gsStep st p) := rfl

theorem sweepAux_append (l₁ l₂ : List (ℕ × ℕ)) (st : Grid × ℚ) :
    sweepAux (l₁ ++ l₂) st = sweepAux l₂ (sweepAux l₁ st) :=
  List.foldl_append gsStep st l₁ l₂

/-- Points not visited by a sequence of Gauss-Seidel updates keep their
values. -/
theorem sweepAux_frame : ∀ (ps : List (ℕ × ℕ)) (st : Grid × ℚ) (i j : ℕ),
    (i, j) ∉ ps → (sweepAux ps st).1 i j = st.1 i j := by
  intro ps
  induction ps with
  | nil => intro st i j _; rfl
  | cons q t ih =>
      intro st i j hn
      rw [sweepAux_cons, ih _ i j (fun hm => hn (List.mem_cons_of_mem q hm)),
        gsStep_fst]
      refine updateCell_other _ _ _ _ _ _ fun hc => hn ?_
      have : (i, j) = q := Prod.ext hc.1 hc.2
      rw [this]
      exact List.mem_cons_self q t

theorem mem_interiorPoints {n i j : ℕ} :
    (i, j) ∈ interiorPoints n ↔ interiorIdx n i j := by
  simp only [interiorPoints, interiorIdx, List.mem_flatMap, List.mem_map,
    List.mem_range'_1, Prod.mk.injEq]
  constructor
  · rintro ⟨a, ⟨ha1, ha2⟩, b, ⟨hb1, hb2⟩, hai, hbj⟩
    omega
  · rintro ⟨h1, h2, h3, h4⟩
    exact ⟨i, ⟨h1, by omega⟩, j, ⟨h3, by omega⟩, rfl, rfl⟩

theorem pairwise_interiorPoints (n : ℕ) : (interiorPoints n).Pairwise rmLt := by
  have aux : ∀ l : List ℕ, l.Pairwise (· < ·) →
      (l.flatMap fun i => (List.range' 1 (n - 2)).map fun j => (i, j)).Pairwise rmLt := by
    intro l hl
    induction l with
    | nil => simp
    | cons a t ih =>
        rw [List.pairwise_cons] at hl
        rw [List.flatMap_cons, List.pairwise_append]
        refine ⟨?_, ih hl.2, ?_⟩
        · rw [List.pairwise_map]
          exact (List.pairwise_lt_range' 1 (n - 2)).imp fun hj => Or.inr ⟨rfl, hj⟩
        · intro x hx y hy
          rw [List.mem_map] at hx
          obtain ⟨jx, _, hxe⟩ := hx
          rw [List.mem_flatMap] at hy
          obtain ⟨iy, hiy, hye⟩ := hy
          rw [List.mem_map] at hye
          obtain ⟨jy, _, hye⟩ := hye
          rw [← hxe, ← hye]
          exact Or.inl (hl.1 iy hiy)
  exact aux _ (List.pairwise_lt_range' 1 (n - 2))

theorem nodup_interiorPoints (n : ℕ) : (interiorPoints n).Nodup :=
  (pairwise_interiorPoints n).imp fun hpq => by
    intro he
    rw [he] at hpq
    rcases hpq with h | ⟨_, h⟩ <;> omega

theorem not_mem_interiorPoints_of_boundary {n i j : ℕ} (h : isBoundary n i j) :
    (i, j) ∉ interiorPoints n := by
  rw [mem_interiorPoints]
  unfold isBoundary at h
  unfold interiorIdx
  omega

/-- Generic congruence for folds whose step functions agree on the list
members. -/
theorem foldl_congr_mem {α β : Type} (f f' : β → α → β) :
    ∀ (l : List α) (b : β), (∀ a ∈ l, ∀ c, f c a = f' c a) →
      l.foldl f b = l.foldl f' b := by
  intro l
  induction l with
  | nil => intro b _; rfl
  | cons x xs ih =>
      intro b H
      simp only [List.foldl_cons]
      rw [H x (List.mem_cons_self x xs)]
      exact ih _ fun a ha c => H a (List.mem_cons_of_mem x ha) c

/-- After a duplicate-free sequence of updates, the accumulated change metric
is the fold of the pointwise absolute differences between the final and the
initial grid. -/
theorem sweepAux_metric_eq : ∀ (ps : List (ℕ × ℕ)), ps.Nodup →
    ∀ (g : Grid) (m : ℚ),
      (sweepAux ps (g, m)).2 =
        ps.foldl (fun a p => max a |(sweepAux ps (g, m)).1 p.1 p.2 - g p.1 p.2|) m := by
  intro ps
  induction ps with
  | nil => intro _ g m; rfl
  | cons q t ih =>
      intro hnd g m
      rw [List.nodup_cons] at hnd
      obtain ⟨hq, hnt⟩ := hnd
      have hstep : gsStep (g, m) q =
          (updateCell g q.1 q.2
            ((g (q.1 - 1) q.2 + g (q.1 + 1) q.2 + g q.1 (q.2 - 1) + g q.1 (q.2 + 1)) / 4),
           max m |(g (q.1 - 1) q.2 + g (q.1 + 1) q.2 + g q.1 (q.2 - 1) + g q.1 (q.2 + 1)) / 4
             - g q.1 q.2|) := rfl
      set v : ℚ :=
        (g (q.1 - 1) q.2 + g (q.1 + 1) q.2 + g q.1 (q.2 - 1) + g q.1 (q.2 + 1)) / 4 with hv
      set g1 : Grid := updateCell g q.1 q.2 v with hg1
      set m1 : ℚ := max m |v - g q.1 q.2| with hm1
      have hGeq : (sweepAux (q :: t) (g, m)).1 = (sweepAux t (g1, m1)).1 := by
        rw [sweepAux_cons, hstep]
      have hfinal_q : (sweepAux t (g1, m1)).1 q.1 q.2 = v := by
        rw [sweepAux_frame t _ q.1 q.2 (by simpa using hq)]
        exact updateCell_same g q.1 q.2 v
      rw [sweepAux_cons, hstep, List.foldl_cons, hfinal_q, ← hm1, ih hnt g1 m1]
      refine foldl_congr_mem _ _ t m1 fun p hp c => ?_
      have hne : ¬(p.1 = q.1 ∧ p.2 = q.2) := by
        intro hc
        exact hq (by rwa [← Prod.ext hc.1 hc.2])
      rw [hg1, updateCell_other g q.1 q.2 p.1 p.2 v hne]

theorem le_foldl_max {α : Type} (f : α → ℚ) :
    ∀ (l : List α) (b : ℚ), b ≤ l.foldl (fun a p => max a (f p)) b := by
  intro l
  induction l with
  | nil => intro b; exact le_refl b
  | cons x xs ih => intro b; exact le_trans (le_max_left b (f x)) (ih _)

theorem foldl_max_of_mem {α : Type} (f : α → ℚ) :
    ∀ (l : List α) (b : ℚ) (a : α), a ∈ l →
      f a ≤ l.foldl (fun a p => max a (f p)) b := by
  intro l
  induction l with
  | nil => intro b a ha; exact absurd ha (List.not_mem_nil a)
  | cons x xs ih =>
      intro b a ha
      rcases List.mem_cons.mp ha with he | ht
      · rw [he]
        exact le_trans (le_max_right b (f x)) (le_foldl_max f xs _)
      · exact ih _ a ht

theorem foldl_max_cases {α : Type} (f : α → ℚ) :
    ∀ (l : List α) (b : ℚ),
      l.foldl (fun a p => max a (f p)) b = b ∨
        ∃ a ∈ l, l.foldl (fun a p => max a (f p)) b = f a := by
  intro l
  induction l with
  | nil => intro b; exact Or.inl rfl
  | cons x xs ih =>
      intro b
      rcases ih (max b (f x)) with h | ⟨a, ha, h⟩
      · simp only [List.foldl_cons]
        rcases max_choice b (f x) with hm | hm
        · rw [h, hm]; exact Or.inl rfl
        · rw [h, hm]; exact Or.inr ⟨x, List.mem_cons_self x xs, rfl⟩
      · exact Or.inr ⟨a, List.mem_cons_of_mem x ha, by simpa using h⟩

/-- The heart of Gauss-Seidel: after one sweep, each interior point holds the
mean of its already-updated up and left neighbors (their post-sweep values)
and its not-yet-visited down and right neighbors (their pre-sweep values),
because the traversal is row-major and in place. -/
theorem sweep_gauss_seidel_value {n i j : ℕ} (g : Grid)
    (hi : 1 ≤ i) (hin : i ≤ n - 2) (hj : 1 ≤ j) (hjn : j ≤ n - 2) :
    (RelaxationKernel.sweep n g).1 i j =
      ((RelaxationKernel.sweep n g).1 (i - 1) j + g (i + 1) j +
       (RelaxationKernel.sweep n g).1 i (j - 1) + g i (j + 1)) / 4 := by
  have hmem : (i, j) ∈ interiorPoints n := mem_interiorPoints.mpr ⟨hi, hin, hj, hjn⟩
  obtain ⟨l₁, l₂, hsplit⟩ := List.append_of_mem hmem
  have hpw : (interiorPoints n).Pairwise rmLt := pairwise_interiorPoints n
  rw [hsplit, List.pairwise_append] at hpw
  obtain ⟨-, hpw2, hcross⟩ := hpw
  rw [List.pairwise_cons] at hpw2
  have hhead : ∀ y ∈ l₂, rmLt (i, j) y := hpw2.1
  have hnl₂ : ∀ a b : ℕ, ¬rmLt (i, j) (a, b) → (a, b) ∉ l₂ :=
    fun a b hn hm => hn (hhead _ hm)
  have hnl₁ : ∀ a b : ℕ, ¬rmLt (a, b) (i, j) → (a, b) ∉ l₁ :=
    fun a b hn hm => hn (hcross _ hm _ (List.mem_cons_self _ _))
  have hG : RelaxationKernel.sweep n g =
      sweepAux l₂ (gsStep (sweepAux l₁ (g, 0)) (i, j)) := by
    rw [RelaxationKernel.sweep, hsplit, sweepAux_append, sweepAux_cons]
  set st₁ := sweepAux l₁ (g, 0) with hst₁
  have hij_l₂ : (i, j) ∉ l₂ := hnl₂ i j (by simp [rmLt])
  have hvij : (RelaxationKernel.sweep n g).1 i j =
      (st₁.1 (i - 1) j + st₁.1 (i + 1) j + st₁.1 i (j - 1) + st₁.1 i (j + 1)) / 4 := by
    rw [hG, sweepAux_frame _ _ _ _ hij_l₂, gsStep_fst]
    exact updateCell_same _ _ _ _
  have h_up : (RelaxationKernel.sweep n g).1 (i - 1) j = st₁.1 (i - 1) j := by
    have hm2 : (i - 1, j) ∉ l₂ := hnl₂ _ _ (by simp [rmLt])
    rw [hG, sweepAux_frame _ _ _ _ hm2, gsStep_fst]
    exact updateCell_other _ _ _ _ _ _ (by simp; omega)
  have h_left : (RelaxationKernel.sweep n g).1 i (j - 1) = st₁.1 i (j - 1) := by
    have hm2 : (i, j - 1) ∉ l₂ := hnl₂ _ _ (by simp [rmLt])
    rw [hG, sweepAux_frame _ _ _ _ hm2, gsStep_fst]
    exact updateCell_other _ _ _ _ _ _ (by simp; omega)
  have h_down : st₁.1 (i + 1) j = g (i + 1) j := by
    have hm1 : (i + 1, j) ∉ l₁ := hnl₁ _ _ (by simp [rmLt])
    rw [hst₁, sweepAux_frame _ _ _ _ hm1]
  have h_right : st₁.1 i (j + 1) = g i (j + 1) := by
    have hm1 : (i, j + 1) ∉ l₁ := hnl₁ _ _ (by simp [rmLt])
    rw [hst₁, sweepAux_frame _ _ _ _ hm1]
  rw [hvij, h_down, h_right, h_up, h_left]

/-- The change metric of one sweep is the fold of pointwise absolute
differences over the interior points. -/
theorem sweep_metric_foldl (n : ℕ) (g : Grid) :
    (RelaxationKernel.sweep n g).2 =
      (interiorPoints n).foldl
        (fun a p => max a |(RelaxationKernel.sweep n g).1 p.1 p.2 - g p.1 p.2|) 0 :=
  sweepAux_metric_eq (interiorPoints n) (nodup_interiorPoints n) g 0

/-- One sweep never touches a boundary cell. -/
theorem sweep_boundary_frame {n i j : ℕ} (g : Grid) (h : isBoundary n i j) :
    (RelaxationKernel.sweep n g).1 i j = g i j :=
  sweepAux_frame _ _ _ _ (not_mem_interiorPoints_of_boundary h)

theorem evaluate_converged_iff (c : ℚ) (it : ℤ) (ε : ℚ) (M : ℤ) :
    ConvergenceTracker.evaluate c it ε M = Decision.CONVERGED ↔ c < ε := by
  unfold ConvergenceTracker.evaluate
  split_ifs with h1 h2
  · exact ⟨fun _ => h1, fun _ => rfl⟩
  · exact ⟨fun hx => absurd hx (by decide), fun hc => absurd hc h1⟩
  · exact ⟨fun hx => absurd hx (by decide), fun hc => absurd hc h1⟩

theorem evaluate_max_iter_iff (c : ℚ) (it : ℤ) (ε : ℚ) (M : ℤ) :
    ConvergenceTracker.evaluate c it ε M = Decision.MAX_ITER_REACHED ↔
      M ≤ it ∧ ε ≤ c := by
  unfold ConvergenceTracker.evaluate
  split_ifs with h1 h2
  · exact ⟨fun hx => absurd hx (by decide), fun hc => absurd h1 (not_lt.mpr hc.2)⟩
  · exact ⟨fun _ => ⟨h2, not_lt.mp h1⟩, fun _ => rfl⟩
  · exact ⟨fun hx => absurd hx (by decide), fun hc => absurd hc.1 h2⟩

theorem evaluate_continue_iff (c : ℚ) (it : ℤ) (ε : ℚ) (M : ℤ) :
    ConvergenceTracker.evaluate c it ε M = Decision.CONTINUE ↔
      ε ≤ c ∧ it < M := by
  unfold ConvergenceTracker.evaluate
  split_ifs with h1 h2
  · exact ⟨fun hx => absurd hx (by decide), fun hc => absurd h1 (not_lt.mpr hc.1)⟩
  · exact ⟨fun hx => absurd hx (by decide), fun hc => absurd h2 (not_le.mpr hc.2)⟩
  · exact ⟨fun _ => ⟨not_lt.mp h1, not_le.mp h2⟩, fun _ => rfl⟩

theorem innerLoop_eq (i : ℕ) : ∀ (c j : ℕ) (st : Grid × ℚ),
    RelaxationKernel.innerLoop i j c st =
      sweepAux ((List.range' j c).map fun jj => (i, jj)) st := by
  intro c
  induction c with
  | zero => intro j st; rfl
  | succ c ih =>
      intro j st
      rw [List.range'_succ j c 1, List.map_cons, sweepAux_cons]
      simp only [RelaxationKernel.innerLoop]
      exact ih (j + 1) (gsStep st (i, j))

theorem outerLoop_eq (m : ℕ) : ∀ (c i : ℕ) (st : Grid × ℚ),
    RelaxationKernel.outerLoop m i c st =
      sweepAux ((List.range' i c).flatMap fun ii =>
        (List.range' 1 m).map fun jj => (ii, jj)) st := by
  intro c
  induction c with
  | zero => intro i st; rfl
  | succ c ih =>
      intro i st
      rw [List.range'_succ i c 1, List.flatMap_cons, sweepAux_append, ← innerLoop_eq]
      simp only [RelaxationKernel.outerLoop]
      exact ih (i + 1) (RelaxationKernel.innerLoop i 1 m st)

/-- The accelerated kernel computes exactly the baseline's sweep. -/
theorem sweepNumba_eq_sweep : RelaxationKernel.sweepNumba = RelaxationKernel.sweep := by
  funext n g
  rw [RelaxationKernel.sweepNumba, outerLoop_eq]
  rfl

/-- C1: one call to RelaxationKernel.sweep traverses the interior points in
row-major order, replaces each interior point in place with the mean of its
four axis-adjacent neighbors so that later updates in the same sweep observe
already-updated values (up and left neighbors contribute their post-sweep
values, down and right their pre-sweep values: Gauss-Seidel, not Jacobi), and
the returned change metric is the maximum absolute difference over all
interior points between the values before and after the sweep. -/
theorem C1_sweep_row_major_gauss_seidel (n : ℕ) (g : Grid) (hn : 3 ≤ n) :
    (∀ i j, interiorIdx n i j →
      (RelaxationKernel.sweep n g).1 i j =
        ((RelaxationKernel.sweep n g).1 (i - 1) j + g (i + 1) j +
         (RelaxationKernel.sweep n g).1 i (j - 1) + g i (j + 1)) / 4) ∧
    IsGreatest
      {x : ℚ | ∃ i j, interiorIdx n i j ∧
        x = |(RelaxationKernel.sweep n g).1 i j - g i j|}
      (RelaxationKernel.sweep n g).2 := by
  constructor
  · rintro i j ⟨h1, h2, h3, h4⟩
    exact sweep_gauss_seidel_value g h1 h2 h3 h4
  · constructor
    · rw [sweep_metric_foldl n g]
      rcases foldl_max_cases
          (fun p => |(RelaxationKernel.sweep n g).1 p.1 p.2 - g p.1 p.2|)
          (interiorPoints n) 0 with hc | ⟨p, hp, hc⟩
      · have h11 : interiorIdx n 1 1 := by unfold interiorIdx; omega
        refine ⟨1, 1, h11, ?_⟩
        have hle := foldl_max_of_mem
          (fun p => |(RelaxationKernel.sweep n g).1 p.1 p.2 - g p.1 p.2|)
          (interiorPoints n) 0 (1, 1) (mem_interiorPoints.mpr h11)
        rw [hc] at hle ⊢
        exact (le_antisymm hle (abs_nonneg _)).symm
      · obtain ⟨pi, pj⟩ := p
        exact ⟨pi, pj, mem_interiorPoints.mp hp, hc⟩
    · rintro x ⟨i, j, hidx, hx⟩
      subst hx
      rw [sweep_metric_foldl n g]
      have hb := foldl_max_of_mem
        (fun p => |(RelaxationKernel.sweep n g).1 p.1 p.2 - g p.1 p.2|)
        (interiorPoints n) 0 (i, j) (mem_interiorPoints.mpr hidx)
      simpa using hb

/-- Witness for C1 at the concrete grid size 3 and a concrete grid. -/
theorem C1_sweep_row_major_gauss_seidel_witness :
    3 ≤ 3 ∧
    ((∀ i j, interiorIdx 3 i j →
      (RelaxationKernel.sweep 3 gSample).1 i j =
        ((RelaxationKernel.sweep 3 gSample).1 (i - 1) j + gSample (i + 1) j +
         (RelaxationKernel.sweep 3 gSample).1 i (j - 1) + gSample i (j + 1)) / 4) ∧
    IsGreatest
      {x : ℚ | ∃ i j, interiorIdx 3 i j ∧
        x = |(RelaxationKernel.sweep 3 gSample).1 i j - gSample i j|}
      (RelaxationKernel.sweep 3 gSample).2) :=
  ⟨by decide, C1_sweep_row_major_gauss_seidel 3 gSample (by decide)⟩

/-- C2: ConvergenceTracker.evaluate returns CONVERGED exactly when the change
metric is below epsilon, MAX_ITER_REACHED (as a returned value, not an
exception) exactly when the iteration count has reached the cap while the
change metric has not dropped below epsilon, and CONTINUE in every other
case. -/
theorem C2_convergence_tracker_evaluate (c : ℚ) (it : ℤ) (ε : ℚ) (M : ℤ) :
    (ConvergenceTracker.evaluate c it ε M = Decision.CONVERGED ↔ c < ε) ∧
    (ConvergenceTracker.evaluate c it ε M = Decision.MAX_ITER_REACHED ↔
      it ≥ M ∧ c ≥ ε) ∧
    (ConvergenceTracker.evaluate c it ε M = Decision.CONTINUE ↔
      ¬(c < ε) ∧ ¬(it ≥ M ∧ c ≥ ε)) := by
  refine ⟨evaluate_converged_iff c it ε M, evaluate_max_iter_iff c it ε M, ?_⟩
  rw [evaluate_continue_iff c it ε M]
  constructor
  · rintro ⟨hec, hit⟩
    exact ⟨not_lt.mpr hec, fun hb => absurd hit (not_lt.mpr hb.1)⟩
  · rintro ⟨hnc, hn⟩
    refine ⟨not_lt.mp hnc, ?_⟩
    by_contra hge
    exact hn ⟨not_lt.mp hge, not_lt.mp hnc⟩

/-- C3: on identical inputs the baseline and the accelerated variants produce
grids whose elementwise absolute difference is below 1e-8 (they are in fact
identical), equal iteration counts, and equal converged flags. -/
theorem C3_variants_equivalent (b : ℕ → ℕ → ℚ) (h ε : ℚ) (M : ℤ) :
    (∀ i j, |gridOf (solve_laplace_gauss_seidel_pure b h ε M) i j -
             gridOf (solve_laplace_gauss_seidel_numba b h ε M) i j| <
              1 / 100000000) ∧
    iterationsOf (solve_laplace_gauss_seidel_pure b h ε M) =
      iterationsOf (solve_laplace_gauss_seidel_numba b h ε M) ∧
    convergedOf (solve_laplace_gauss_seidel_pure b h ε M) =
      convergedOf (solve_laplace_gauss_seidel_numba b h ε M) ∧
    solve_laplace_gauss_seidel_pure b h ε M =
      solve_laplace_gauss_seidel_numba b h ε M := by
  have he : solve_laplace_gauss_seidel_pure b h ε M =
      solve_laplace_gauss_seidel_numba b h ε M := by
    unfold solve_laplace_gauss_seidel_pure solve_laplace_gauss_seidel_numba
    rw [sweepNumba_eq_sweep]
  refine ⟨?_, by rw [he], by rw [he], he⟩
  intro i j
  rw [he, sub_self, abs_zero]
  norm_num

theorem initGrid_boundary (b : ℕ → ℕ → ℚ) (n i j : ℕ) (hb : isBoundary n i j) :
    GridModel.initGrid b n i j = b i j := by
  unfold isBoundary at hb
  unfold GridModel.initGrid
  rw [if_pos hb]

theorem solve_invalid (kernel : ℕ → Grid → Grid × ℚ) (b : ℕ → ℕ → ℚ)
    (h ε : ℚ) (M : ℤ) (hbad : h ≤ 0 ∨ 1 ≤ h ∨ ε ≤ 0 ∨ M ≤ 0) :
    Solver.solve kernel b h ε M = Except.error SolveError.InvalidArgument := by
  unfold Solver.solve
  rw [if_pos hbad]

theorem solve_valid_eq (kernel : ℕ → Grid → Grid × ℚ) (b : ℕ → ℕ → ℚ)
    (h ε : ℚ) (M : ℤ) (hh : 0 < h) (h1 : h < 1) (hε : 0 < ε) (hM : 0 < M) :
    Solver.solve kernel b h ε M =
      Except.ok (Solver.loop (kernel (gridN h)) ε M M.toNat
        (GridModel.initGrid b (gridN h)) 0 0) := by
  unfold Solver.solve
  rw [if_neg]
  simp only [not_or]
  exact ⟨not_le.mpr hh, not_le.mpr h1, not_le.mpr hε, not_le.mpr hM⟩

/-- The solver loop with the baseline kernel never writes a boundary cell. -/
theorem loop_boundary_frame (n : ℕ) (ε : ℚ) (M : ℤ) :
    ∀ (fuel : ℕ) (g : Grid) (it : ℕ) (ch : ℚ) (i j : ℕ), isBoundary n i j →
      (Solver.loop (RelaxationKernel.sweep n) ε M fuel g it ch).grid i j = g i j := by
  intro fuel
  induction fuel with
  | zero => intro g it ch i j _; rfl
  | succ fuel ih =>
      intro g it ch i j hb
      simp only [Solver.loop]
      cases hev : ConvergenceTracker.evaluate (RelaxationKernel.sweep n g).2
          ((it + 1 : ℕ) : ℤ) ε M with
      | CONVERGED => exact sweep_boundary_frame g hb
      | MAX_ITER_REACHED => exact sweep_boundary_frame g hb
      | CONTINUE =>
          exact (ih (RelaxationKernel.sweep n g).1 (it + 1)
            (RelaxationKernel.sweep n g).2 i j hb).trans (sweep_boundary_frame g hb)

/-- Inside its fuel budget, the loop's converged flag is set exactly when the
final change metric dropped below epsilon. -/
theorem loop_converged_iff (kernel : Grid → Grid × ℚ) (ε : ℚ) (M : ℤ) :
    ∀ (fuel : ℕ) (g : Grid) (it : ℕ) (ch : ℚ), (it : ℤ) + fuel = M → 1 ≤ fuel →
      ((Solver.loop kernel ε M fuel g it ch).converged = true ↔
        (Solver.loop kernel ε M fuel g it ch).final_error < ε) := by
  intro fuel
  induction fuel with
  | zero => intro g it ch _ hf; exact absurd hf (by omega)
  | succ fuel ih =>
      intro g it ch hinv _
      simp only [Solver.loop]
      cases hev : ConvergenceTracker.evaluate (kernel g).2 ((it + 1 : ℕ) : ℤ) ε M with
      | CONVERGED =>
          exact iff_of_true rfl ((evaluate_converged_iff _ _ _ _).mp hev)
      | MAX_ITER_REACHED =>
          have hc := (evaluate_max_iter_iff _ _ _ _).mp hev
          exact iff_of_false (by simp) (not_lt.mpr hc.2)
      | CONTINUE =>
          obtain ⟨-, hit⟩ := (evaluate_continue_iff _ _ _ _).mp hev
          push_cast at hit hinv
          exact ih (kernel g).1 (it + 1) (kernel g).2 (by push_cast; omega) (by omega)

theorem solve_converged_iff (kernel : ℕ → Grid → Grid × ℚ) (b : ℕ → ℕ → ℚ)
    (h ε : ℚ) (M : ℤ) (hh : 0 < h) (h1 : h < 1) (hε : 0 < ε) (hM : 0 < M) :
    (convergedOf (Solver.solve kernel b h ε M) = true ↔
      errorOf (Solver.solve kernel b h ε M) < ε) := by
  rw [solve_valid_eq kernel b h ε M hh h1 hε hM]
  exact loop_converged_iff (kernel (gridN h)) ε M M.toNat
    (GridModel.initGrid b (gridN h)) 0 0
    (by simp [Int.toNat_of_nonneg hM.le]) (by omega)

/-- C4: a valid solve call returns to the caller a record made of exactly the
final grid, the iteration count, the final change metric and a converged flag
(the flag truly reflecting whether the final metric is below epsilon); the
wall-clock elapsed time is computed by the caller as the difference of its
own two clock readings around the call, and the solve outcome is independent
of that clock. -/
theorem C4_solve_result_and_caller_timing (kernel : ℕ → Grid → Grid × ℚ)
    (b : ℕ → ℕ → ℚ) (h ε : ℚ) (M : ℤ) (clock clock' : ℕ → ℚ) (t t' : ℕ)
    (hh : 0 < h) (h1 : h < 1) (hε : 0 < ε) (hM : 0 < M) :
    Solver.solve kernel b h ε M =
      Except.ok ⟨gridOf (Solver.solve kernel b h ε M),
                 iterationsOf (Solver.solve kernel b h ε M),
                 errorOf (Solver.solve kernel b h ε M),
                 convergedOf (Solver.solve kernel b h ε M)⟩ ∧
    (convergedOf (Solver.solve kernel b h ε M) = true ↔
      errorOf (Solver.solve kernel b h ε M) < ε) ∧
    (timedRun clock t kernel b h ε M).2 = Solver.solve kernel b h ε M ∧
    (timedRun clock t kernel b h ε M).2 = (timedRun clock' t' kernel b h ε M).2 ∧
    (timedRun clock t kernel b h ε M).1 = clock (t + 1) - clock t := by
  refine ⟨?_, solve_converged_iff kernel b h ε M hh h1 hε hM, rfl, rfl, rfl⟩
  rw [solve_valid_eq kernel b h ε M hh h1 hε hM]
  rfl

/-- Witness for C4 at concrete arguments. -/
theorem C4_solve_result_and_caller_timing_witness :
    Solver.solve RelaxationKernel.sweep bSample (1/2) 1 1 =
      Except.ok ⟨gridOf (Solver.solve RelaxationKernel.sweep bSample (1/2) 1 1),
                 iterationsOf (Solver.solve RelaxationKernel.sweep bSample (1/2) 1 1),
                 errorOf (Solver.solve RelaxationKernel.sweep bSample (1/2) 1 1),
                 convergedOf (Solver.solve RelaxationKernel.sweep bSample (1/2) 1 1)⟩ ∧
    (convergedOf (Solver.solve RelaxationKernel.sweep bSample (1/2) 1 1) = true ↔
      errorOf (Solver.solve RelaxationKernel.sweep bSample (1/2) 1 1) < 1) ∧
    (timedRun (fun _ => 0) 0 RelaxationKernel.sweep bSample (1/2) 1 1).2 =
      Solver.solve RelaxationKernel.sweep bSample (1/2) 1 1 ∧
    (timedRun (fun _ => 0) 0 RelaxationKernel.sweep bSample (1/2) 1 1).2 =
      (timedRun (fun k => k) 3 RelaxationKernel.sweep bSample (1/2) 1 1).2 ∧
    (timedRun (fun _ => 0) 0 RelaxationKernel.sweep bSample (1/2) 1 1).1 =
      (fun _ => (0 : ℚ)) (0 + 1) - (fun _ => (0 : ℚ)) 0 :=
  C4_solve_result_and_caller_timing RelaxationKernel.sweep bSample (1/2) 1 1
    (fun _ => 0) (fun k => k) 0 3 one_half_pos one_half_lt_one one_pos one_pos

/-- C5: any input with h at most 0, h at least 1, epsilon at most 0 or
max_iter at most 0 fails with InvalidArgument; the outcome is the same
whatever kernel and boundary data would have been used, i.e. the failure
precedes any grid allocation or grid work, and no recovery happens. -/
theorem C5_invalid_argument (kernel kernel' : ℕ → Grid → Grid × ℚ)
    (b b' : ℕ → ℕ → ℚ) (h ε : ℚ) (M : ℤ)
    (hbad : h ≤ 0 ∨ 1 ≤ h ∨ ε ≤ 0 ∨ M ≤ 0) :
    Solver.solve kernel b h ε M = Except.error SolveError.InvalidArgument ∧
    Solver.solve kernel b h ε M = Solver.solve kernel' b' h ε M :=
  ⟨solve_invalid kernel b h ε M hbad,
   (solve_invalid kernel b h ε M hbad).trans
     (solve_invalid kernel' b' h ε M hbad).symm⟩

/-- Witness for C5 at h = 0. -/
theorem C5_invalid_argument_witness :
    Solver.solve RelaxationKernel.sweep bSample 0 1 5 =
      Except.error SolveError.InvalidArgument ∧
    Solver.solve RelaxationKernel.sweep bSample 0 1 5 =
      Solver.solve RelaxationKernel.sweepNumba (fun _ _ => 7) 0 1 5 :=
  C5_invalid_argument RelaxationKernel.sweep RelaxationKernel.sweepNumba
    bSample (fun _ _ => 7) 0 1 5 (Or.inl (le_refl 0))

/-- C6: boundary values are assigned by the boundary function at
construction, a sweep never mutates any boundary cell, and after a valid
solve the boundary cells still hold exactly the values set at
initialization. -/
theorem C6_boundary_invariance :
    (∀ (b : ℕ → ℕ → ℚ) (n i j : ℕ), isBoundary n i j →
      GridModel.initGrid b n i j = b i j) ∧
    (∀ (n : ℕ) (g : Grid) (i j : ℕ), isBoundary n i j →
      (RelaxationKernel.sweep n g).1 i j = g i j) ∧
    (∀ (b : ℕ → ℕ → ℚ) (h ε : ℚ) (M : ℤ), 0 < h → h < 1 → 0 < ε → 0 < M →
      ∀ i j, isBoundary (gridN h) i j →
        gridOf (Solver.solve RelaxationKernel.sweep b h ε M) i j = b i j) := by
  refine ⟨initGrid_boundary, fun n g i j hb => sweep_boundary_frame g hb, ?_⟩
  intro b h ε M hh h1 hε hM i j hb
  rw [solve_valid_eq RelaxationKernel.sweep b h ε M hh h1 hε hM]
  show (Solver.loop (RelaxationKernel.sweep (gridN h)) ε M M.toNat
    (GridModel.initGrid b (gridN h)) 0 0).grid i j = b i j
  rw [loop_boundary_frame (gridN h) ε M M.toNat
    (GridModel.initGrid b (gridN h)) 0 0 i j hb]
  exact initGrid_boundary b (gridN h) i j hb

/-- Witness for C6 at concrete arguments and the boundary corner (0, 0). -/
theorem C6_boundary_invariance_witness :
    gridOf (Solver.solve RelaxationKernel.sweep bSample (1/2) 1 1) 0 0 =
      bSample 0 0 :=
  C6_boundary_invariance.2.2 bSample (1/2) 1 1 one_half_pos one_half_lt_one
    one_pos one_pos 0 0 (Or.inl rfl)

/-- C8 counterexample: at the valid spacing h = 1/2 and tolerance 1, calling
solve with max_iter = 0 does not return a result at all: by the spec's own
argument-validation rule (sections 4.4 and 7, max_iter at most 0), it fails
with InvalidArgument, contradicting the claimed immediate return with zero
iterations. -/
theorem C8_max_iter_zero_counterexample :
    ((0 : ℚ) < 1/2 ∧ (1/2 : ℚ) < 1 ∧ (0 : ℚ) < 1) ∧
    Solver.solve RelaxationKernel.sweep bSample (1/2) 1 0 =
      Except.error SolveError.InvalidArgument ∧
    ∀ r : SolveResult,
      Solver.solve RelaxationKernel.sweep bSample (1/2) 1 0 ≠ Except.ok r := by
  have he := solve_invalid RelaxationKernel.sweep bSample (1/2) 1 0
    (Or.inr (Or.inr (Or.inr (le_refl 0))))
  refine ⟨⟨one_half_pos, one_half_lt_one, one_pos⟩, he, fun r hr => ?_⟩
  rw [he] at hr
  exact Except.noConfusion hr

/-- C8 amended: for every valid h and epsilon, calling solve with
max_iter = 0 fails synchronously with InvalidArgument (the argument check of
spec sections 4.4 and 7 covers max_iter = 0), rather than returning a
zero-iteration result. -/
theorem C8_max_iter_zero_amended (kernel : ℕ → Grid → Grid × ℚ)
    (b : ℕ → ℕ → ℚ) (h ε : ℚ) (hh : 0 < h) (h1 : h < 1) (hε : 0 < ε) :
    Solver.solve kernel b h ε 0 = Except.error SolveError.InvalidArgument :=
  solve_invalid kernel b h ε 0 (Or.inr (Or.inr (Or.inr (le_refl 0))))

/-- Witness for the amended C8. -/
theorem C8_max_iter_zero_amended_witness :
    Solver.solve RelaxationKernel.sweepNumba bSample (1/2) 1 0 =
      Except.error SolveError.InvalidArgument :=
  C8_max_iter_zero_amended RelaxationKernel.sweepNumba bSample (1/2) 1
    one_half_pos one_half_lt_one one_pos

/-- C9: a solve variant is a pure function of its arguments: two successive
calls on identical inputs yield identical outcomes, and the sequence of
results the benchmark loop accumulates is pointwise the per-spacing result,
uninfluenced by any earlier run. -/
theorem C9_determinism (kernel : ℕ → Grid → Grid × ℚ) (b : ℕ → ℕ → ℚ)
    (h ε : ℚ) (M : ℤ) (variant : ℚ → Except SolveError SolveResult)
    (hs : List ℚ) :
    (solveTwice kernel b h ε M).1 = (solveTwice kernel b h ε M).2 ∧
    benchSolveSeq variant hs = hs.map variant := by
  refine ⟨rfl, ?_⟩
  have aux : ∀ (l : List ℚ) (acc : List (Except SolveError SolveResult)),
      l.foldl (fun a x => a ++ [variant x]) acc = acc ++ l.map variant := by
    intro l
    induction l with
    | nil => intro acc; simp
    | cons x xs ih =>
        intro acc
        rw [List.foldl_cons, ih, List.map_cons]
        simp
  simpa [benchSolveSeq] using aux hs []

theorem dlookup_dinsert_self {α : Type} (k : String) (v : α) :
    ∀ d : List (String × α), dlookup k (dinsert k v d) = some v := by
  intro d
  induction d with
  | nil => simp [dinsert, dlookup]
  | cons qw d ih =>
      obtain ⟨q, w⟩ := qw
      by_cases hk : k = q
      · simp [dinsert, dlookup, hk]
      · simp [dinsert, dlookup, hk, ih]

theorem dlookup_dinsert_other {α : Type} (k k' : String) (v : α) (hne : k' ≠ k) :
    ∀ d : List (String × α), dlookup k' (dinsert k v d) = dlookup k' d := by
  intro d
  induction d with
  | nil => simp [dinsert, dlookup, hne]
  | cons qw d ih =>
      obtain ⟨q, w⟩ := qw
      by_cases hk : k = q
      · have hk' : k' ≠ q := fun hq => hne (hq.trans hk.symm)
        simp [dinsert, dlookup, hk, hk']
      · by_cases hq' : k' = q
        · simp [dinsert, dlookup, hk, hq']
        · simp [dinsert, dlookup, hk, hq', ih]

theorem dlookup_dinsert_isSome {α : Type} (k k' : String) (v : α)
    (d : List (String × α)) (hs : (dlookup k' d).isSome = true) :
    (dlookup k' (dinsert k v d)).isSome = true := by
  by_cases hk : k' = k
  · subst hk
    rw [dlookup_dinsert_self]
    rfl
  · rw [dlookup_dinsert_other k k' v hk]
    exact hs

theorem dictComplete_dinsert (k : String) (r : List (String × ℚ))
    (d : List (String × List (String × ℚ)))
    (hd : DictComplete d) (hr : EntryComplete r) : DictComplete (dinsert k r d) := by
  intro k' r' hl
  by_cases hk : k' = k
  · subst hk
    rw [dlookup_dinsert_self] at hl
    rw [← Option.some.inj hl]
    exact hr
  · rw [dlookup_dinsert_other k k' r hk] at hl
    exact hd k' r' hl

theorem benchEntry_complete (tp tn : ℚ → ℚ) (h : ℚ) :
    EntryComplete (benchEntry tp tn h) := by
  constructor <;> simp [benchEntry, dlookup]

/-- Folding benchmark insertions preserves completeness of every stored
entry and the presence of every key already present. -/
theorem run_benchmark_fold_good (gs : ℚ → ℕ) (tp tn : ℚ → ℚ) :
    ∀ (l : List ℚ) (acc : List (String × List (String × ℚ))), DictComplete acc →
      DictComplete (l.foldl
        (fun a h => dinsert (benchKey gs h) (benchEntry tp tn h) a) acc) ∧
      ∀ k, (dlookup k acc).isSome = true →
        (dlookup k (l.foldl
          (fun a h => dinsert (benchKey gs h) (benchEntry tp tn h) a) acc)).isSome = true := by
  intro l
  induction l with
  | nil => intro acc hacc; exact ⟨hacc, fun _ hk => hk⟩
  | cons x xs ih =>
      intro acc hacc
      simp only [List.foldl_cons]
      have hacc' : DictComplete (dinsert (benchKey gs x) (benchEntry tp tn x) acc) :=
        dictComplete_dinsert _ _ _ hacc (benchEntry_complete tp tn x)
      obtain ⟨hg, hp⟩ := ih _ hacc'
      exact ⟨hg, fun k hk => hp k (dlookup_dinsert_isSome _ _ _ _ hk)⟩

/-- Every spacing processed by the benchmark fold ends up with a complete
entry under its grid-size key. -/
theorem run_benchmark_mem_key (gs : ℚ → ℕ) (tp tn : ℚ → ℚ) :
    ∀ (l : List ℚ) (acc : List (String × List (String × ℚ))),
      DictComplete acc → ∀ h ∈ l,
      ∃ r, dlookup (benchKey gs h)
          (l.foldl (fun a h => dinsert (benchKey gs h) (benchEntry tp tn h) a) acc) =
            some r ∧ EntryComplete r := by
  intro l
  induction l with
  | nil => intro acc _ h hm; exact absurd hm (List.not_mem_nil h)
  | cons x xs ih =>
      intro acc hacc h hm
      simp only [List.foldl_cons]
      have hacc' : DictComplete (dinsert (benchKey gs x) (benchEntry tp tn x) acc) :=
        dictComplete_dinsert _ _ _ hacc (benchEntry_complete tp tn x)
      rcases List.mem_cons.mp hm with he | ht
      · subst he
        have hpres := (run_benchmark_fold_good gs tp tn xs _ hacc').2 (benchKey gs h)
          (by rw [dlookup_dinsert_self]; rfl)
        have hgood := (run_benchmark_fold_good gs tp tn xs _ hacc').1
        obtain ⟨r, hr⟩ := Option.isSome_iff_exists.mp hpres
        exact ⟨r, hr, hgood _ r hr⟩
      · exact ih _ hacc' h ht

/-- C10: for any grid-size function and measured timings, the all_results
dictionary run_benchmark builds maps the grid key of every processed spacing
to an entry holding both the python and the numba values, so the unguarded
lookups of plot_benchmark_results (lines 90-91 of run_comparison.py) cannot
miss a key when invoked on the same spacing list. -/
theorem C10_plot_lookups_safe (gs : ℚ → ℕ) (tp tn : ℚ → ℚ) (hs : List ℚ)
    (h : ℚ) (hmem : h ∈ hs) :
    ∃ r, dlookup (benchKey gs h) (run_benchmark gs tp tn hs) = some r ∧
      (dlookup "python" r).isSome = true ∧ (dlookup "numba" r).isSome = true := by
  have hempty : DictComplete ([] : List (String × List (String × ℚ))) :=
    fun _ _ hkr => Option.noConfusion hkr
  obtain ⟨r, hr, hc⟩ := run_benchmark_mem_key gs tp tn hs [] hempty h hmem
  exact ⟨r, hr, hc.1, hc.2⟩

/-- Witness for C10 on a one-element spacing list. -/
theorem C10_plot_lookups_safe_witness :
    ∃ r, dlookup (benchKey (fun _ => 11) 0)
        (run_benchmark (fun _ => 11) (fun _ => 1) (fun _ => 2) [0]) = some r ∧
      (dlookup "python" r).isSome = true ∧ (dlookup "numba" r).isSome = true :=
  C10_plot_lookups_safe (fun _ => 11) (fun _ => 1) (fun _ => 2) [0] 0
    (List.mem_singleton.mpr rfl)

theorem rne_eq_of_lt_half (x : ℚ) (f : ℤ) (h1 : (f : ℚ) ≤ x) (h2 : x < f + 1)
    (hfr : x - f < 1/2) : rne x = f := by
  have hf : ⌊x⌋ = f := Int.floor_eq_iff.mpr ⟨h1, h2⟩
  unfold rne
  rw [hf, if_pos hfr]

theorem rne_eq_of_half_lt (x : ℚ) (f : ℤ) (h1 : (f : ℚ) ≤ x) (h2 : x < f + 1)
    (hfr : 1/2 < x - f) : rne x = f + 1 := by
  have hf : ⌊x⌋ = f := Int.floor_eq_iff.mpr ⟨h1, h2⟩
  unfold rne
  rw [hf, if_neg (by linarith), if_pos hfr]

theorem rnd_eval (q : ℚ) (e : ℤ) (h0 : 0 < q) (h1 : (2:ℚ)^e ≤ q)
    (h2 : q < (2:ℚ)^(e+1)) :
    rnd q = ((rne (q * 2^((52:ℤ) - e)) : ℤ) : ℚ) * 2^(e - (52:ℤ)) := by
  have ha : e ≤ Int.log 2 q := (Int.zpow_le_iff_le_log (by norm_num) h0).mp
    (by exact_mod_cast h1)
  have hb : Int.log 2 q < e + 1 := (Int.lt_zpow_iff_log_lt (by norm_num) h0).mp
    (by exact_mod_cast h2)
  have hlog : Int.log 2 q = e := by omega
  rw [rnd, hlog]

theorem toDouble_tenth : toDouble (1/10) = 3602879701896397 / 2^55 := by
  unfold toDouble
  rw [rnd_eval (1/10) (-4) (by norm_num) (by norm_num) (by norm_num)]
  rw [rne_eq_of_half_lt _ 7205759403792793 (by norm_num) (by norm_num) (by norm_num)]
  norm_num

theorem toDouble_twentieth : toDouble (1/20) = 3602879701896397 / 2^56 := by
  unfold toDouble
  rw [rnd_eval (1/20) (-5) (by norm_num) (by norm_num) (by norm_num)]
  rw [rne_eq_of_half_lt _ 7205759403792793 (by norm_num) (by norm_num) (by norm_num)]
  norm_num

theorem toDouble_fiftieth : toDouble (1/50) = 5764607523034235 / 2^58 := by
  unfold toDouble
  rw [rnd_eval (1/50) (-6) (by norm_num) (by norm_num) (by norm_num)]
  rw [rne_eq_of_half_lt _ 5764607523034234 (by norm_num) (by norm_num) (by norm_num)]
  norm_num

theorem toDouble_hundredth : toDouble (1/100) = 5764607523034235 / 2^59 := by
  unfold toDouble
  rw [rnd_eval (1/100) (-7) (by norm_num) (by norm_num) (by norm_num)]
  rw [rne_eq_of_half_lt _ 5764607523034234 (by norm_num) (by norm_num) (by norm_num)]
  norm_num

/-- The binary64 value nearest 0.1 is itself exactly representable, so
rounding it is the identity. -/
theorem toDouble_d01 : toDouble (3602879701896397 / 2^55) = 3602879701896397 / 2^55 := by
  unfold toDouble
  rw [rnd_eval (3602879701896397 / 2^55) (-4) (by norm_num) (by norm_num) (by norm_num)]
  rw [rne_eq_of_lt_half _ 7205759403792794 (by norm_num) (by norm_num) (by norm_num)]
  norm_num

theorem fdiv_d01 : fdiv 1 (3602879701896397 / 2^55) = 10 := by
  unfold fdiv
  rw [rnd_eval (1 / (3602879701896397 / 2^55)) 3 (by norm_num) (by norm_num)
    (by norm_num)]
  rw [rne_eq_of_half_lt _ 5629499534213119 (by norm_num) (by norm_num) (by norm_num)]
  norm_num

theorem fdiv_d005 : fdiv 1 (3602879701896397 / 2^56) = 20 := by
  unfold fdiv
  rw [rnd_eval (1 / (3602879701896397 / 2^56)) 4 (by norm_num) (by norm_num)
    (by norm_num)]
  rw [rne_eq_of_half_lt _ 5629499534213119 (by norm_num) (by norm_num) (by norm_num)]
  norm_num

theorem fdiv_d002 : fdiv 1 (5764607523034235 / 2^58) = 50 := by
  unfold fdiv
  rw [rnd_eval (1 / (5764607523034235 / 2^58)) 5 (by norm_num) (by norm_num)
    (by norm_num)]
  rw [rne_eq_of_half_lt _ 7036874417766399 (by norm_num) (by norm_num) (by norm_num)]
  norm_num

theorem fdiv_d001 : fdiv 1 (5764607523034235 / 2^59) = 100 := by
  unfold fdiv
  rw [rnd_eval (1 / (5764607523034235 / 2^59)) 6 (by norm_num) (by norm_num)
    (by norm_num)]
  rw [rne_eq_of_half_lt _ 7036874417766399 (by norm_num) (by norm_num) (by norm_num)]
  norm_num

theorem truncQ_ten : truncQ 10 = 10 := by
  unfold truncQ
  rw [if_pos (by norm_num)]
  norm_num

theorem truncQ_twenty : truncQ 20 = 20 := by
  unfold truncQ
  rw [if_pos (by norm_num)]
  norm_num

theorem truncQ_fifty : truncQ 50 = 50 := by
  unfold truncQ
  rw [if_pos (by norm_num)]
  norm_num

theorem truncQ_hundred : truncQ 100 = 100 := by
  unfold truncQ
  rw [if_pos (by norm_num)]
  norm_num

/-- C7 counterexample: at the spacing h = 3602879701896397/2^55 (the binary64
value written 0.1, well inside (0, 1)), the exact mathematical floor of the
real quotient 1/h is 9, so the claimed grid size would be 10; but the code's
int(1/h) + 1, with the division correctly rounded to binary64, yields 11.
The claim as stated is therefore false at this spacing. -/
theorem C7_grid_size_counterexample :
    ((0 : ℚ) < 3602879701896397 / 2^55 ∧ (3602879701896397 / 2^55 : ℚ) < 1) ∧
    grid_size (3602879701896397 / 2^55) = 11 ∧
    ⌊(1 : ℚ) / (3602879701896397 / 2^55)⌋ + 1 = 10 ∧
    grid_size (3602879701896397 / 2^55) ≠ ⌊(1 : ℚ) / (3602879701896397 / 2^55)⌋ + 1 := by
  have hg : grid_size (3602879701896397 / 2^55) = 11 := by
    unfold grid_size
    rw [toDouble_d01, fdiv_d01, truncQ_ten]
    norm_num
  have hf : ⌊(1 : ℚ) / (3602879701896397 / 2^55)⌋ = 9 :=
    Int.floor_eq_iff.mpr ⟨by norm_num, by norm_num⟩
  refine ⟨⟨by norm_num, by norm_num⟩, hg, by rw [hf]; norm_num, ?_⟩
  rw [hg, hf]
  norm_num

/-- C7 amended: the grid size the code computes is int(1/h) + 1 in binary64
arithmetic; for the four benchmark spacings 0.1, 0.05, 0.02, 0.01 this gives
11, 21, 51 and 101, which coincide with the exact floor(1/h) + 1 for the
decimal spacings (and with the spec-modelled exact grid size), though not for
every spacing in (0, 1). -/
theorem C7_grid_size_amended :
    (grid_size (1/10) = 11 ∧ grid_size (1/20) = 21 ∧
     grid_size (1/50) = 51 ∧ grid_size (1/100) = 101) ∧
    (⌊(1:ℚ)/(1/10)⌋ + 1 = 11 ∧ ⌊(1:ℚ)/(1/20)⌋ + 1 = 21 ∧
     ⌊(1:ℚ)/(1/50)⌋ + 1 = 51 ∧ ⌊(1:ℚ)/(1/100)⌋ + 1 = 101) ∧
    (gridN (1/10) = 11 ∧ gridN (1/20) = 21 ∧
     gridN (1/50) = 51 ∧ gridN (1/100) = 101) := by
  refine ⟨⟨?_, ?_, ?_, ?_⟩, ⟨by norm_num, by norm_num, by norm_num, by norm_num⟩,
    ⟨?_, ?_, ?_, ?_⟩⟩
  · unfold grid_size
    rw [toDouble_tenth, fdiv_d01, truncQ_ten]
    norm_num
  · unfold grid_size
    rw [toDouble_twentieth, fdiv_d005, truncQ_twenty]
    norm_num
  · unfold grid_size
    rw [toDouble_fiftieth, fdiv_d002, truncQ_fifty]
    norm_num
  · unfold grid_size
    rw [toDouble_hundredth, fdiv_d001, truncQ_hundred]
    norm_num
  · unfold gridN
    norm_num
  · unfold gridN
    norm_num
  · unfold gridN
    norm_num
  · unfold gridN
    norm_num

end LaplaceGS
